import Mathlib

/-!
Verification of the drafts-mcp callback-correlation core.

This file gives a shallow embedding of the two core components of the
repository — the `CallbackServer` class (src/callback-server.ts) and the
`DraftsClient` class (the retrying invoker) — and proves the frozen claims
about them.

Modelling conventions:
* The JavaScript `Map<string, PendingRequest>` becomes an association list
  `List (String × Nat)`; `Map.get`/`Map.set`/`Map.delete` become
  `mapGet`/`mapSet`/`mapDelete` below, with JS `Map` semantics
  (set replaces in place, insertion order preserved).
* A promise's resolve/reject pair is represented by a numeric future
  identifier (`Nat`), allocated by a counter at registration time; every
  call the code makes to `resolve`/`reject` is recorded in a settlement
  log, so "the promise settles exactly once" becomes "each future id
  occurs at most once in the log".
* A `setTimeout` handle becomes a `Timer` record (its future id, the
  request id captured by the timeout closure, and the armed duration);
  `clearTimeout` removes it from the list of live timers, and a timeout
  can only fire while its timer is still in that list.
* Express hands each route handler the parsed query object; a query is
  modelled as `List (String × QVal)` where a `QVal` is a string or a list
  of strings (a repeated parameter), matching the `typeof value ===
  'string'` filter in the success handler.
-/

/-- A parsed query-string value as express delivers it: a plain string or
an array of strings for a repeated parameter. -/
inductive QVal where
  | str (s : String)
  | strs (l : List String)
deriving DecidableEq, Repr

/-- `CallbackResponse` from src/types.ts: `{ success: boolean; data?:
Record<string,string>; error?: string }`. -/
structure CallbackResponse where
  success : Bool
  data : Option (List (String × String))
  error : Option String
deriving DecidableEq, Repr

/-- One recorded call to a pending promise's `resolve` or `reject`. -/
inductive Settlement where
  | resolve (r : CallbackResponse)
  | reject (msg : String)
deriving DecidableEq, Repr

/-- A live `setTimeout` handle: the future id of the registration that
armed it, the request id captured by its closure, and its duration in
milliseconds. -/
structure Timer where
  fid : Nat
  reqId : String
  duration : Nat
deriving DecidableEq, Repr

/-- The state of a `CallbackServer` instance: bound port, fresh-future
counter, the `pendingRequests` map (request id ↦ future id), the live
timers, and the settlement log of all resolve/reject calls made so far. -/
structure SState where
  port : Nat
  nextId : Nat
  pending : List (String × Nat)
  timers : List Timer
  settles : List (Nat × Settlement)
deriving DecidableEq, Repr

/-- `REQUEST_TIMEOUT = 30000` (30 seconds) from src/callback-server.ts. -/
def REQUEST_TIMEOUT : Nat := 30000

/-- JS `Map.get`: first (and, keys being unique, only) entry for a key. -/
def mapGet {β : Type} : List (String × β) → String → Option β
  | [], _ => none
  | (a, b) :: ps, k => if a = k then some b else mapGet ps k

/-- JS `Map.set`: replace the entry in place when the key is present,
append otherwise. -/
def mapSet {β : Type} : List (String × β) → String → β → List (String × β)
  | [], k, v => [(k, v)]
  | (a, b) :: ps, k, v => if a = k then (k, v) :: ps else (a, b) :: mapSet ps k v

/-- JS `Map.delete`: drop the entry with the given key. -/
def mapDelete {β : Type} (m : List (String × β)) (k : String) : List (String × β) :=
  m.filter (fun p => p.1 != k)

/-- `clearTimeout`: the timer with the given future id is no longer live. -/
def clearTimer (ts : List Timer) (n : Nat) : List Timer :=
  ts.filter (fun t => t.fid != n)

/-- Record one call to `resolve`/`reject` of future `n`. -/
def logSettle (s : SState) (n : Nat) (x : Settlement) : SState :=
  { s with settles := s.settles ++ [(n, x)] }

/-- How many times future `n` has been settled so far. -/
def settleCount (s : SState) (n : Nat) : Nat :=
  s.settles.countP (fun p => p.1 == n)

/-- A freshly constructed server (after `start()` bound the given port):
empty request table, no timers, nothing settled. -/
def initServer (port : Nat) : SState :=
  { port := port, nextId := 0, pending := [], timers := [], settles := [] }

/-- `registerRequest(requestId)` (src/callback-server.ts:129–142): arm a
30-second timeout whose closure captures `requestId`, and store the new
pending entry (its resolve/reject pair is the fresh future `s.nextId`,
its stored timeout handle is the timer with that same id). -/
def registerRequest (s : SState) (requestId : String) : SState :=
  { s with
      nextId := s.nextId + 1,
      timers := s.timers ++ [⟨s.nextId, requestId, REQUEST_TIMEOUT⟩],
      pending := mapSet s.pending requestId s.nextId }

/-- Common shape of a settling step (the three callback routes once a
pending entry was found, and the timeout closure): clear the timer with
the given future id, delete the table entry under the given key, settle
the given future. (The entry's stored timeout handle is the timer
armed at its registration, i.e. the timer whose `fid` is the entry's
future id.) -/
def settleAndRemove (s : SState) (requestId : String) (n : Nat) (x : Settlement) : SState :=
  logSettle
    { s with
        timers := clearTimer s.timers n,
        pending := mapDelete s.pending requestId }
    n x

/-- The `data` object built by the success handler: keep exactly the
string-valued query parameters (`typeof value === 'string'`). -/
def stringEntries (q : List (String × QVal)) : List (String × String) :=
  q.filterMap (fun p =>
    match p.2 with
    | .str v => some (p.1, v)
    | .strs _ => none)

/-- `GET /x-success/:requestId` (src/callback-server.ts:19–38). Returns
the new state and the HTTP status sent back (always 200). -/
def handleSuccess (s : SState) (requestId : String) (q : List (String × QVal)) :
    SState × Nat :=
  match mapGet s.pending requestId with
  | some n =>
      (settleAndRemove s requestId n
        (.resolve { success := true, data := some (stringEntries q), error := none }), 200)
  | none => (s, 200)

/-- `(req.query.error as string) || 'Unknown error'`: absent or empty
means the default; an array value is truthy and passes through (it
stringifies downstream by comma-joining, modelled here directly). -/
def errorFrom (q : List (String × QVal)) : String :=
  match mapGet q "error" with
  | some (.str v) => if v = "" then "Unknown error" else v
  | some (.strs l) => String.intercalate "," l
  | none => "Unknown error"

/-- `GET /x-error/:requestId` (src/callback-server.ts:41–54). -/
def handleError (s : SState) (requestId : String) (q : List (String × QVal)) :
    SState × Nat :=
  match mapGet s.pending requestId with
  | some n =>
      (settleAndRemove s requestId n
        (.resolve { success := false, data := none, error := some (errorFrom q) }), 200)
  | none => (s, 200)

/-- `GET /x-cancel/:requestId` (src/callback-server.ts:57–68); the query
string is ignored. -/
def handleCancel (s : SState) (requestId : String) : SState × Nat :=
  match mapGet s.pending requestId with
  | some n =>
      (settleAndRemove s requestId n
        (.resolve { success := false, data := none, error := some "User cancelled" }), 200)
  | none => (s, 200)

/-- The timeout closure of `registerRequest` firing for future `fid`: it
can only run while its timer is live; it deletes the table entry under
its captured request id and rejects its own future with the timeout
message. Firing consumes the timer. -/
def fireTimeout (s : SState) (fid : Nat) : SState :=
  match s.timers.find? (fun t => t.fid == fid) with
  | some t =>
      settleAndRemove s t.reqId fid
        (.reject ("Request " ++ t.reqId ++ " timed out after " ++
          toString REQUEST_TIMEOUT ++ "ms"))
  | none => s

/-- `stop()` (src/callback-server.ts:91–110): for every entry of the
table, clear its timer and reject its future with the shutdown error;
then clear the table. -/
def stopServer (s : SState) : SState :=
  { s with
      timers := s.timers.filter (fun t => !(s.pending.any (fun p => p.2 == t.fid))),
      pending := [],
      settles := s.settles ++
        s.pending.map (fun p => (p.2, Settlement.reject "Server shutting down")) }

/-- `getCallbackUrls(requestId)` (src/callback-server.ts:116–127). -/
def getCallbackUrls (s : SState) (requestId : String) : String × String × String :=
  let baseUrl := "http://localhost:" ++ toString s.port
  (baseUrl ++ "/x-success/" ++ requestId,
   baseUrl ++ "/x-error/" ++ requestId,
   baseUrl ++ "/x-cancel/" ++ requestId)

/-- The externally visible events a server instance reacts to. -/
inductive Event where
  | register (id : String)
  | success (id : String) (q : List (String × QVal))
  | error (id : String) (q : List (String × QVal))
  | cancel (id : String)
  | fire (fid : Nat)
  | stop
deriving DecidableEq, Repr

/-- One event handled atomically on the single-threaded event loop. -/
def stepServer (s : SState) : Event → SState
  | .register id => registerRequest s id
  | .success id q => (handleSuccess s id q).1
  | .error id q => (handleError s id q).1
  | .cancel id => (handleCancel s id).1
  | .fire fid => fireTimeout s fid
  | .stop => stopServer s

/-- Run a sequence of events. -/
def runServer (s : SState) (evs : List Event) : SState :=
  evs.foldl stepServer s

/-!
The retrying invoker, `DraftsClient` (unnamed source file; class
`DraftsClient`). The `open`-by-URL launch and the awaited callback are
the only external effects of an attempt; an attempt's interaction with
the outside world is therefore fed in as the outcome of its awaited
registration promise (`Except String CallbackResponse`: `.error` is a
promise rejection such as the correlator's timeout, `.ok` a settled
`CallbackResponse`).
-/

/-- One parameter value accepted by `buildUrl`: string, string array or
boolean (an absent/undefined value is `none` at the call site). -/
inductive PVal where
  | s (v : String)
  | arr (vs : List String)
  | b (v : Bool)
deriving DecidableEq, Repr

/-- Uppercase hex digit for `n < 16`. -/
def hexDigitU (n : Nat) : Char :=
  Char.ofNat (if n < 10 then 48 + n else 55 + n)

/-- `%XX` percent-escape of one byte, uppercase hex. -/
def percentByte (b : Nat) : String :=
  String.mk ['%', hexDigitU (b / 16), hexDigitU (b % 16)]

/-- The UTF-8 bytes of a character. -/
def utf8Bytes (c : Char) : List Nat :=
  let n := c.toNat
  if n < 0x80 then [n]
  else if n < 0x800 then [0xC0 + n / 64, 0x80 + n % 64]
  else if n < 0x10000 then [0xE0 + n / 4096, 0x80 + (n / 64) % 64, 0x80 + n % 64]
  else [0xF0 + n / 262144, 0x80 + (n / 4096) % 64, 0x80 + (n / 64) % 64, 0x80 + n % 64]

/-- ASCII letter or digit. -/
def isUriAlphaNum (c : Char) : Bool :=
  decide ((65 ≤ c.toNat ∧ c.toNat ≤ 90) ∨ (97 ≤ c.toNat ∧ c.toNat ≤ 122) ∨
    (48 ≤ c.toNat ∧ c.toNat ≤ 57))

/-- The marks left unescaped by ECMAScript `encodeURIComponent`:
`- _ . ! ~ * ' ( )`. -/
def isEcmaMark (c : Char) : Bool :=
  decide (c.toNat ∈ [45, 95, 46, 33, 126, 42, 39, 40, 41])

/-- The bytes left unescaped by the WHATWG
`application/x-www-form-urlencoded` serializer (`URLSearchParams`):
alphanumerics and `* - . _`. -/
def isFormSafe (c : Char) : Bool :=
  isUriAlphaNum c || decide (c.toNat ∈ [42, 45, 46, 95])

/-- ECMAScript `encodeURIComponent`: percent-encode the UTF-8 bytes of
every character outside the unreserved set. -/
def encodeURIComponent (s : String) : String :=
  String.join (s.data.map (fun c =>
    if isUriAlphaNum c || isEcmaMark c then String.singleton c
    else String.join ((utf8Bytes c).map percentByte)))

/-- `DraftsClient.encodeURIComponentSafe`: `encodeURIComponent` followed
by `.replace(/[!'()*]/g, c => '%' + c.charCodeAt(0).toString(16).toUpperCase())`. -/
def encodeURIComponentSafe (str : String) : String :=
  String.join ((encodeURIComponent str).data.map (fun c =>
    if c.toNat ∈ [33, 39, 40, 41, 42] then percentByte c.toNat
    else String.singleton c))

/-- One character under the `application/x-www-form-urlencoded`
serializer: space becomes `+`, safe bytes stay, the rest of the UTF-8
bytes are percent-escaped. -/
def formUrlEncodeChar (c : Char) : String :=
  if c.toNat = 32 then "+"
  else if isFormSafe c then String.singleton c
  else String.join ((utf8Bytes c).map percentByte)

/-- WHATWG form-urlencoding of a string (how `URLSearchParams`
serializes each key and value). -/
def formUrlEncode (s : String) : String :=
  String.join (s.data.map formUrlEncodeChar)

/-- `URLSearchParams.toString()` over the appended key/value pairs. -/
def searchParamsToString (ps : List (String × String)) : String :=
  String.intercalate "&" (ps.map (fun p => formUrlEncode p.1 ++ "=" ++ formUrlEncode p.2))

/-- The `for (const [key, value] of Object.entries(params))` loop of
`buildUrl`: skip `undefined`, append each array element, stringify
booleans, append strings. -/
def expandParams (params : List (String × Option PVal)) : List (String × String) :=
  params.foldl (fun acc p =>
    match p.2 with
    | none => acc
    | some (.arr vs) => acc ++ vs.map (fun v => (p.1, v))
    | some (.b v) => acc ++ [(p.1, if v then "true" else "false")]
    | some (.s v) => acc ++ [(p.1, v)]) []

/-- `DraftsClient.buildUrl`: callback URL triple from the server, the
expanded parameters followed by `x-success`/`x-error`/`x-cancel` in a
`URLSearchParams`, assembled into the `drafts://x-callback-url/...`
invocation URL. The freshly minted `randomUUID()` is passed in as
`requestId`. -/
def buildUrl (server : SState) (requestId : String) (endpoint : String)
    (params : List (String × Option PVal)) : String :=
  let callbacks := getCallbackUrls server requestId
  let urlParams := expandParams params ++
    [("x-success", callbacks.1), ("x-error", callbacks.2.1), ("x-cancel", callbacks.2.2)]
  "drafts://x-callback-url/" ++ endpoint ++ "?" ++ searchParamsToString urlParams

/-- `DraftsClient.executeWithRetry`, with the attempt bodies supplied as
`fn` (the outcome of attempt number `attempt`, counting from 0).
Returns the final outcome, the number of attempts made, and the list of
awaited inter-attempt delays in order. -/
def executeWithRetry {E A : Type} (fn : Nat → Except E A) (retryDelay : Nat) :
    Nat → Nat → Except E A × Nat × List Nat
  | retries, attempt =>
    match fn attempt with
    | .ok a => (.ok a, 1, [])
    | .error e =>
      match retries with
      | 0 => (.error e, 1, [])
      | r + 1 =>
        let rest := executeWithRetry fn retryDelay r (attempt + 1)
        (rest.1, rest.2.1 + 1, retryDelay :: rest.2.2)

/-- JS `a || b` on an optional string: absent or empty falls back. -/
def jsOr (v : Option String) (dflt : String) : String :=
  match v with
  | some s => if s = "" then dflt else s
  | none => dflt

/-- `DraftsClient.openUrl` after the `open` launch succeeded: await the
registration promise; a rejected promise propagates; a failure outcome
throws `response.error || 'Unknown error from Drafts'`; a success
outcome returns `response.data || {}`. -/
def openUrlOutcome (reply : Except String CallbackResponse) :
    Except String (List (String × String)) :=
  match reply with
  | .error e => .error e
  | .ok resp =>
    if resp.success then .ok (resp.data.getD [])
    else .error (jsOr resp.error "Unknown error from Drafts")

/-- The `Draft` record from src/types.ts. -/
structure Draft where
  uuid : String
  title : String
  content : String
  tags : List String
  createdAt : String
  modifiedAt : String
  isFlagged : Bool
  isArchived : Bool
  isTrashed : Bool
deriving DecidableEq, Repr

/-- One attempt body of `DraftsClient.getDraft`: on a success outcome,
`if (!response.text) throw new Error('No content returned from Drafts')`,
otherwise assemble the typed `Draft` from the returned fields. -/
def getDraftAttempt (uuid : String) (reply : Except String CallbackResponse) :
    Except String Draft :=
  match openUrlOutcome reply with
  | .error e => .error e
  | .ok response =>
    let text := jsOr (mapGet response "text") ""
    if text = "" then .error "No content returned from Drafts"
    else
      let content := text
      let title := jsOr (mapGet response "title") ((content.splitOn "\n").headD "")
      let tags := match mapGet response "tags" with
                  | some t => if t = "" then [] else t.splitOn ","
                  | none => []
      .ok { uuid := uuid,
            title := title,
            content := content,
            tags := tags,
            createdAt := jsOr (mapGet response "createdAt") "",
            modifiedAt := jsOr (mapGet response "modifiedAt") "",
            isFlagged := mapGet response "flagged" = some "true",
            isArchived := mapGet response "archived" = some "true",
            isTrashed := mapGet response "trashed" = some "true" }

/-- `DraftsClient.getDraft`: the attempt body under `executeWithRetry`;
`env i` is the awaited promise outcome of attempt `i`. -/
def getDraft (uuid : String) (env : Nat → Except String CallbackResponse)
    (retryDelay maxRetries : Nat) : Except String Draft × Nat × List Nat :=
  executeWithRetry (fun i => getDraftAttempt uuid (env i)) retryDelay maxRetries 0

/-- The parameters of `DraftsClient.openDraft`. -/
structure OpenDraftParams where
  uuid : Option String
  title : Option String
deriving DecidableEq, Repr

/-- One attempt body of `DraftsClient.openDraft`: the
`if (!params.uuid && !params.title) throw` validation (JS falsiness:
absent or empty string), then `buildUrl`/`openUrl`. The boolean records
whether the external invocation was reached in this attempt. -/
def openDraftAttempt (p : OpenDraftParams) (server : SState) (requestId : String)
    (reply : Except String CallbackResponse) : Except String Unit × Bool :=
  if (p.uuid = none ∨ p.uuid = some "") ∧ (p.title = none ∨ p.title = some "") then
    (.error "Either uuid or title must be provided", false)
  else
    let _url := buildUrl server requestId "open"
      [("uuid", p.uuid.map PVal.s), ("title", p.title.map PVal.s)]
    match openUrlOutcome reply with
    | .error e => (.error e, true)
    | .ok _ => (.ok (), true)

/-- `DraftsClient.openDraft`: the attempt body under `executeWithRetry`;
`rid i` is the `randomUUID()` of attempt `i` and `env i` its awaited
promise outcome. -/
def openDraft (p : OpenDraftParams) (server : SState) (rid : Nat → String)
    (env : Nat → Except String CallbackResponse) (retryDelay maxRetries : Nat) :
    Except String Unit × Nat × List Nat :=
  executeWithRetry (fun i => (openDraftAttempt p server (rid i) (env i)).1)
    retryDelay maxRetries 0

/-! Association-list and timer-list lemmas. -/

theorem mapGet_mem {β : Type} {m : List (String × β)} {k : String} {v : β}
    (h : mapGet m k = some v) : (k, v) ∈ m := by
  induction m with
  | nil => simp [mapGet] at h
  | cons p ps ih =>
    obtain ⟨a, b⟩ := p
    rw [mapGet] at h
    by_cases hk : a = k
    · subst hk
      simp at h
      subst h
      exact List.mem_cons_self _ _
    · rw [if_neg hk] at h
      exact List.mem_cons_of_mem _ (ih h)

theorem mapGet_eq_none {β : Type} {m : List (String × β)} {k : String} :
    mapGet m k = none ↔ ∀ v, (k, v) ∉ m := by
  induction m with
  | nil => simp [mapGet]
  | cons p ps ih =>
    obtain ⟨a, b⟩ := p
    rw [mapGet]
    by_cases hk : a = k
    · subst hk
      constructor
      · intro h; simp at h
      · intro h
        exact absurd (List.mem_cons_self (a, b) ps) (h b)
    · rw [if_neg hk, ih]
      constructor
      · intro h v
        simp only [List.mem_cons, Prod.mk.injEq]
        rintro (⟨h1, _⟩ | hm)
        · exact hk h1.symm
        · exact h v hm
      · intro h v hv
        exact h v (List.mem_cons_of_mem _ hv)

theorem mem_mapGet {β : Type} {m : List (String × β)} {k : String} {v : β}
    (nd : (m.map Prod.fst).Nodup) (h : (k, v) ∈ m) : mapGet m k = some v := by
  induction m with
  | nil => cases h
  | cons p ps ih =>
    obtain ⟨a, b⟩ := p
    have nd' : a ∉ ps.map Prod.fst ∧ (ps.map Prod.fst).Nodup :=
      List.nodup_cons.mp (by simpa using nd)
    rw [mapGet]
    rcases List.mem_cons.mp h with he | hm
    · have h1 : k = a := congrArg Prod.fst he
      have h2 : v = b := congrArg Prod.snd he
      subst h1; subst h2
      simp
    · have hk : a ≠ k := by
        intro he2
        exact nd'.1 (by rw [he2]; exact List.mem_map_of_mem Prod.fst hm)
      rw [if_neg hk]
      exact ih nd'.2 hm

theorem mapGet_mapSet_self {β : Type} (m : List (String × β)) (k : String) (v : β) :
    mapGet (mapSet m k v) k = some v := by
  induction m with
  | nil => simp [mapSet, mapGet]
  | cons p ps ih =>
    obtain ⟨a, b⟩ := p
    rw [mapSet]
    by_cases hk : a = k
    · rw [if_pos hk, mapGet, if_pos rfl]
    · rw [if_neg hk, mapGet, if_neg hk]
      exact ih

theorem mem_mapSet {β : Type} {m : List (String × β)} {k k' : String} {v v' : β}
    (nd : (m.map Prod.fst).Nodup) :
    (k', v') ∈ mapSet m k v ↔ (k' = k ∧ v' = v) ∨ ((k', v') ∈ m ∧ k' ≠ k) := by
  induction m with
  | nil => simp [mapSet, Prod.ext_iff]
  | cons p ps ih =>
    obtain ⟨a, b⟩ := p
    have nd' : a ∉ ps.map Prod.fst ∧ (ps.map Prod.fst).Nodup :=
      List.nodup_cons.mp (by simpa using nd)
    rw [mapSet]
    by_cases hk : a = k
    · subst hk
      rw [if_pos rfl]
      simp only [List.mem_cons, Prod.mk.injEq]
      constructor
      · rintro (⟨h1, h2⟩ | hm)
        · exact Or.inl ⟨h1, h2⟩
        · exact Or.inr ⟨Or.inr hm,
            fun hkk => nd'.1 (hkk ▸ List.mem_map_of_mem Prod.fst hm)⟩
      · rintro (⟨h1, h2⟩ | ⟨(⟨h1, _⟩ | hm2), hne⟩)
        · exact Or.inl ⟨h1, h2⟩
        · exact absurd h1 hne
        · exact Or.inr hm2
    · rw [if_neg hk]
      simp only [List.mem_cons, Prod.mk.injEq, ih nd'.2]
      constructor
      · rintro (⟨h1, h2⟩ | (⟨h1, h2⟩ | ⟨hm, hne⟩))
        · exact Or.inr ⟨Or.inl ⟨h1, h2⟩, fun hkk => hk (h1 ▸ hkk)⟩
        · exact Or.inl ⟨h1, h2⟩
        · exact Or.inr ⟨Or.inr hm, hne⟩
      · rintro (⟨h1, h2⟩ | ⟨(⟨h1, h2⟩ | hm2), hne⟩)
        · exact Or.inr (Or.inl ⟨h1, h2⟩)
        · exact Or.inl ⟨h1, h2⟩
        · exact Or.inr (Or.inr ⟨hm2, hne⟩)

theorem keys_mapSet_sub {β : Type} {m : List (String × β)} {k x : String} {v : β}
    (h : x ∈ (mapSet m k v).map Prod.fst) : x ∈ m.map Prod.fst ∨ x = k := by
  induction m with
  | nil =>
    simp [mapSet] at h
    exact Or.inr h
  | cons p ps ih =>
    obtain ⟨a, b⟩ := p
    rw [mapSet] at h
    by_cases hk : a = k
    · rw [if_pos hk] at h
      simp only [List.map_cons, List.mem_cons] at h
      rcases h with h | h
      · exact Or.inr h
      · exact Or.inl (by simp only [List.map_cons, List.mem_cons]; exact Or.inr h)
    · rw [if_neg hk] at h
      simp only [List.map_cons, List.mem_cons] at h
      rcases h with h | h
      · exact Or.inl (by simp only [List.map_cons, List.mem_cons]; exact Or.inl h)
      · rcases ih h with h2 | h2
        · exact Or.inl (by simp only [List.map_cons, List.mem_cons]; exact Or.inr h2)
        · exact Or.inr h2

theorem vals_mapSet_sub {β : Type} {m : List (String × β)} {k : String} {x v : β}
    (h : x ∈ (mapSet m k v).map Prod.snd) : x ∈ m.map Prod.snd ∨ x = v := by
  induction m with
  | nil =>
    simp [mapSet] at h
    exact Or.inr h
  | cons p ps ih =>
    obtain ⟨a, b⟩ := p
    rw [mapSet] at h
    by_cases hk : a = k
    · rw [if_pos hk] at h
      simp only [List.map_cons, List.mem_cons] at h
      rcases h with h | h
      · exact Or.inr h
      · exact Or.inl (by simp only [List.map_cons, List.mem_cons]; exact Or.inr h)
    · rw [if_neg hk] at h
      simp only [List.map_cons, List.mem_cons] at h
      rcases h with h | h
      · exact Or.inl (by simp only [List.map_cons, List.mem_cons]; exact Or.inl h)
      · rcases ih h with h2 | h2
        · exact Or.inl (by simp only [List.map_cons, List.mem_cons]; exact Or.inr h2)
        · exact Or.inr h2

theorem keys_mapSet_nodup {β : Type} {m : List (String × β)} {k : String} {v : β}
    (nd : (m.map Prod.fst).Nodup) : ((mapSet m k v).map Prod.fst).Nodup := by
  induction m with
  | nil => simp [mapSet]
  | cons p ps ih =>
    obtain ⟨a, b⟩ := p
    have nd' : a ∉ ps.map Prod.fst ∧ (ps.map Prod.fst).Nodup :=
      List.nodup_cons.mp (by simpa using nd)
    rw [mapSet]
    by_cases hk : a = k
    · rw [if_pos hk]
      simp only [List.map_cons, List.nodup_cons]
      exact ⟨hk ▸ nd'.1, nd'.2⟩
    · rw [if_neg hk]
      simp only [List.map_cons, List.nodup_cons]
      refine ⟨?_, ih nd'.2⟩
      intro hmem
      rcases keys_mapSet_sub hmem with h2 | h2
      · exact nd'.1 h2
      · exact hk h2

theorem vals_mapSet_nodup {β : Type} {m : List (String × β)} {k : String} {v : β}
    (ndv : (m.map Prod.snd).Nodup) (hfresh : ∀ p ∈ m, p.2 ≠ v) :
    ((mapSet m k v).map Prod.snd).Nodup := by
  induction m with
  | nil => simp [mapSet]
  | cons p ps ih =>
    obtain ⟨a, b⟩ := p
    have ndv' : b ∉ ps.map Prod.snd ∧ (ps.map Prod.snd).Nodup :=
      List.nodup_cons.mp (by simpa using ndv)
    rw [mapSet]
    by_cases hk : a = k
    · rw [if_pos hk]
      simp only [List.map_cons, List.nodup_cons]
      refine ⟨?_, ndv'.2⟩
      intro hmem
      obtain ⟨q, hq, hq2⟩ := List.mem_map.mp hmem
      exact hfresh q (List.mem_cons_of_mem _ hq) hq2
    · rw [if_neg hk]
      simp only [List.map_cons, List.nodup_cons]
      refine ⟨?_, ih ndv'.2 (fun q hq => hfresh q (List.mem_cons_of_mem _ hq))⟩
      intro hmem
      rcases vals_mapSet_sub (by simpa using hmem) with h2 | h2
      · exact ndv'.1 h2
      · exact hfresh (a, b) (List.mem_cons_self _ _) h2

theorem mem_mapDelete {β : Type} {m : List (String × β)} {k : String} {p : String × β} :
    p ∈ mapDelete m k ↔ p ∈ m ∧ p.1 ≠ k := by
  simp [mapDelete, List.mem_filter, bne_iff_ne]

theorem mapGet_mapDelete_self {β : Type} (m : List (String × β)) (k : String) :
    mapGet (mapDelete m k) k = none :=
  mapGet_eq_none.mpr (fun _v hv => (mem_mapDelete.mp hv).2 rfl)

theorem mem_clearTimer {ts : List Timer} {n : Nat} {t : Timer} :
    t ∈ clearTimer ts n ↔ t ∈ ts ∧ t.fid ≠ n := by
  simp [clearTimer, List.mem_filter, bne_iff_ne]

theorem nodup_map_filter {α β : Type} (f : α → β) (p : α → Bool) {l : List α}
    (nd : (l.map f).Nodup) : ((l.filter p).map f).Nodup :=
  List.Nodup.sublist (List.Sublist.map f (List.filter_sublist l)) nd

/-! The exactly-once settlement invariant. -/

/-- Invariant of every reachable server state: table keys and future ids
are duplicate-free and below the allocation counter, every table entry's
timer is live and captured the entry's key, every future is settled at
most once, and a settled future is neither in the table nor owns a live
timer. -/
structure ServerInv (s : SState) : Prop where
  pend_lt : ∀ id n, (id, n) ∈ s.pending → n < s.nextId
  tim_lt : ∀ t ∈ s.timers, t.fid < s.nextId
  keys_nd : (s.pending.map Prod.fst).Nodup
  vals_nd : (s.pending.map Prod.snd).Nodup
  fids_nd : (s.timers.map Timer.fid).Nodup
  link : ∀ id n, (id, n) ∈ s.pending → (⟨n, id, REQUEST_TIMEOUT⟩ : Timer) ∈ s.timers
  set_lt : ∀ p ∈ s.settles, p.1 < s.nextId
  set_le : ∀ n, settleCount s n ≤ 1
  set_dis : ∀ n, 0 < settleCount s n →
    (∀ id, (id, n) ∉ s.pending) ∧ (∀ t ∈ s.timers, t.fid ≠ n)

theorem settleCount_pos_iff {s : SState} {n : Nat} :
    0 < settleCount s n ↔ ∃ x, (n, x) ∈ s.settles := by
  rw [settleCount, List.countP_pos_iff]
  constructor
  · rintro ⟨⟨m, x⟩, hm, he⟩
    simp only [beq_iff_eq] at he
    exact ⟨x, by rw [← he]; exact hm⟩
  · rintro ⟨x, hx⟩
    exact ⟨(n, x), hx, by simp⟩

theorem settleCount_fresh {s : SState} (h : ServerInv s) : settleCount s s.nextId = 0 := by
  by_contra hne
  obtain ⟨x, hx⟩ := settleCount_pos_iff.mp (Nat.pos_of_ne_zero hne)
  exact absurd (h.set_lt _ hx) (lt_irrefl _)

theorem settleCount_logSettle (s : SState) (n : Nat) (x : Settlement) (m : Nat) :
    settleCount (logSettle s n x) m = settleCount s m + (if n = m then 1 else 0) := by
  by_cases h : n = m
  · subst h; simp [settleCount, logSettle, List.countP_append]
  · simp [settleCount, logSettle, List.countP_append, h]

theorem settleCount_settleAndRemove (s : SState) (id : String) (n : Nat)
    (x : Settlement) (m : Nat) :
    settleCount (settleAndRemove s id n x) m = settleCount s m + (if n = m then 1 else 0) := by
  rw [settleAndRemove, settleCount_logSettle]
  rfl

theorem countP_snd_le_one {β : Type} [BEq β] [LawfulBEq β] {m : List (String × β)}
    (nd : (m.map Prod.snd).Nodup) (x : β) :
    m.countP (fun p => p.2 == x) ≤ 1 := by
  induction m with
  | nil => simp
  | cons p ps ih =>
    obtain ⟨a, b⟩ := p
    have nd' : b ∉ ps.map Prod.snd ∧ (ps.map Prod.snd).Nodup :=
      List.nodup_cons.mp (by simpa using nd)
    rw [List.countP_cons]
    by_cases hb : b = x
    · subst hb
      have h0 : ps.countP (fun p => p.2 == b) = 0 := by
        rw [List.countP_eq_zero]
        intro q hq
        simp only [beq_iff_eq]
        intro he
        exact nd'.1 (he ▸ List.mem_map_of_mem Prod.snd hq)
      simp [h0]
    · simp only [beq_iff_eq, hb]
      simpa using ih nd'.2

theorem inv_initServer (port : Nat) : ServerInv (initServer port) := by
  constructor <;> simp [initServer, settleCount]

theorem inv_registerRequest {s : SState} (h : ServerInv s) (id : String) :
    ServerInv (registerRequest s id) := by
  have hfresh : ∀ p ∈ s.pending, p.2 ≠ s.nextId := by
    intro p hp he
    exact absurd (h.pend_lt p.1 p.2 hp) (by rw [he]; exact lt_irrefl _)
  have hcount0 : settleCount s s.nextId = 0 := settleCount_fresh h
  refine ⟨?_, ?_, ?_, ?_, ?_, ?_, ?_, ?_, ?_⟩
  · intro id' n' hm
    rcases (mem_mapSet h.keys_nd).mp hm with ⟨_, rfl⟩ | ⟨hm', _⟩
    · exact Nat.lt_succ_self _
    · exact Nat.lt_succ_of_lt (h.pend_lt id' n' hm')
  · intro t ht
    rcases List.mem_append.mp ht with ht | ht
    · exact Nat.lt_succ_of_lt (h.tim_lt t ht)
    · rw [List.mem_singleton.mp ht]
      exact Nat.lt_succ_self _
  · exact keys_mapSet_nodup h.keys_nd
  · exact vals_mapSet_nodup h.vals_nd hfresh
  · simp only [registerRequest, List.map_append, List.nodup_append]
    refine ⟨h.fids_nd, by simp, ?_⟩
    intro a ha hb
    simp only [List.map_cons, List.map_nil, List.mem_singleton] at hb
    obtain ⟨t, ht, hta⟩ := List.mem_map.mp ha
    exact absurd (h.tim_lt t ht) (by rw [hta, hb]; exact lt_irrefl _)
  · intro id' n' hm
    rcases (mem_mapSet h.keys_nd).mp hm with ⟨rfl, rfl⟩ | ⟨hm', _⟩
    · exact List.mem_append_right _ (List.mem_singleton.mpr rfl)
    · exact List.mem_append_left _ (h.link id' n' hm')
  · intro p hp
    exact Nat.lt_succ_of_lt (h.set_lt p hp)
  · intro n
    have : settleCount (registerRequest s id) n = settleCount s n := rfl
    rw [this]
    exact h.set_le n
  · intro n hpos
    have hc : settleCount (registerRequest s id) n = settleCount s n := rfl
    rw [hc] at hpos
    have hdis := h.set_dis n hpos
    have hne : n ≠ s.nextId := by
      intro he
      rw [he] at hpos
      rw [hcount0] at hpos
      exact absurd hpos (lt_irrefl 0)
    constructor
    · intro id' hm
      rcases (mem_mapSet h.keys_nd).mp hm with ⟨_, he⟩ | ⟨hm', _⟩
      · exact hne he
      · exact hdis.1 id' hm'
    · intro t ht
      rcases List.mem_append.mp ht with ht | ht
      · exact hdis.2 t ht
      · rw [List.mem_singleton.mp ht]
        exact fun he => hne he.symm

theorem vals_inj {s : SState} (h : ServerInv s) {id id' : String} {n : Nat}
    (h1 : (id, n) ∈ s.pending) (h2 : (id', n) ∈ s.pending) : id = id' := by
  have := List.inj_on_of_nodup_map h.vals_nd h1 h2 rfl
  exact congrArg Prod.fst this

theorem inv_settleAndRemove {s : SState} (h : ServerInv s) {id : String} {n : Nat}
    (hget : mapGet s.pending id = some n) (x : Settlement) :
    ServerInv (settleAndRemove s id n x) := by
  have hmem : (id, n) ∈ s.pending := mapGet_mem hget
  have hcount0 : settleCount s n = 0 := by
    by_contra hne
    exact (h.set_dis n (Nat.pos_of_ne_zero hne)).1 id hmem
  refine ⟨?_, ?_, ?_, ?_, ?_, ?_, ?_, ?_, ?_⟩
  · intro id' n' hm
    exact h.pend_lt id' n' (mem_mapDelete.mp hm).1
  · intro t ht
    exact h.tim_lt t (mem_clearTimer.mp ht).1
  · exact nodup_map_filter _ _ h.keys_nd
  · exact nodup_map_filter _ _ h.vals_nd
  · exact nodup_map_filter _ _ h.fids_nd
  · intro id' n' hm
    obtain ⟨hm', hne⟩ := mem_mapDelete.mp hm
    have hnn : n' ≠ n := by
      intro he
      subst he
      exact hne (vals_inj h hm' hmem)
    exact mem_clearTimer.mpr ⟨h.link id' n' hm', hnn⟩
  · intro p hp
    rcases List.mem_append.mp hp with hp | hp
    · exact h.set_lt p hp
    · rw [List.mem_singleton.mp hp]
      exact h.pend_lt id n hmem
  · intro m
    rw [settleCount_settleAndRemove]
    by_cases he : n = m
    · subst he
      rw [hcount0]
      simp
    · rw [if_neg he]
      simpa using h.set_le m
  · intro m hpos
    rw [settleCount_settleAndRemove] at hpos
    constructor
    · intro id' hm
      obtain ⟨hm', hne⟩ := mem_mapDelete.mp hm
      by_cases he : m = n
      · subst he
        exact hne (vals_inj h hm' hmem)
      · have hpos' : 0 < settleCount s m := by
          rw [if_neg (fun hh => he hh.symm)] at hpos
          simpa using hpos
        exact (h.set_dis m hpos').1 id' hm'
    · intro t ht
      obtain ⟨ht', htn⟩ := mem_clearTimer.mp ht
      by_cases he : m = n
      · subst he
        exact htn
      · have hpos' : 0 < settleCount s m := by
          rw [if_neg (fun hh => he hh.symm)] at hpos
          simpa using hpos
        exact (h.set_dis m hpos').2 t ht'

theorem inv_fireTimeout {s : SState} (h : ServerInv s) (fid : Nat) :
    ServerInv (fireTimeout s fid) := by
  rw [fireTimeout]
  cases hfind : s.timers.find? (fun t => t.fid == fid) with
  | none => exact h
  | some t =>
    have htmem : t ∈ s.timers := List.mem_of_find?_eq_some hfind
    have htfid : t.fid = fid := by
      have := List.find?_some hfind
      simpa using this
    have hkey : ∀ id', (id', fid) ∈ s.pending → id' = t.reqId := by
      intro id' hm
      have hlink : (⟨fid, id', REQUEST_TIMEOUT⟩ : Timer) ∈ s.timers :=
        h.link id' fid hm
      have := List.inj_on_of_nodup_map h.fids_nd hlink htmem (by simpa using htfid.symm)
      exact congrArg Timer.reqId this
    have hcount0 : settleCount s fid = 0 := by
      by_contra hne
      exact (h.set_dis fid (Nat.pos_of_ne_zero hne)).2 t htmem htfid
    refine ⟨?_, ?_, ?_, ?_, ?_, ?_, ?_, ?_, ?_⟩
    · intro id' n' hm
      exact h.pend_lt id' n' (mem_mapDelete.mp hm).1
    · intro t' ht
      exact h.tim_lt t' (mem_clearTimer.mp ht).1
    · exact nodup_map_filter _ _ h.keys_nd
    · exact nodup_map_filter _ _ h.vals_nd
    · exact nodup_map_filter _ _ h.fids_nd
    · intro id' n' hm
      obtain ⟨hm', hne⟩ := mem_mapDelete.mp hm
      have hnn : n' ≠ fid := by
        intro he
        subst he
        exact hne (hkey id' hm')
      exact mem_clearTimer.mpr ⟨h.link id' n' hm', hnn⟩
    · intro p hp
      rcases List.mem_append.mp hp with hp | hp
      · exact h.set_lt p hp
      · rw [List.mem_singleton.mp hp]
        exact htfid ▸ h.tim_lt t htmem
    · intro m
      rw [settleCount_settleAndRemove]
      by_cases he : fid = m
      · subst he
        rw [hcount0]
        simp
      · rw [if_neg he]
        simpa using h.set_le m
    · intro m hpos
      rw [settleCount_settleAndRemove] at hpos
      constructor
      · intro id' hm
        obtain ⟨hm', hne⟩ := mem_mapDelete.mp hm
        by_cases he : m = fid
        · subst he
          exact hne (hkey id' hm')
        · have hpos' : 0 < settleCount s m := by
            rw [if_neg (fun hh => he hh.symm)] at hpos
            simpa using hpos
          exact (h.set_dis m hpos').1 id' hm'
      · intro t' ht
        obtain ⟨ht', htn⟩ := mem_clearTimer.mp ht
        by_cases he : m = fid
        · subst he
          exact htn
        · have hpos' : 0 < settleCount s m := by
            rw [if_neg (fun hh => he hh.symm)] at hpos
            simpa using hpos
          exact (h.set_dis m hpos').2 t' ht'

theorem inv_stopServer {s : SState} (h : ServerInv s) : ServerInv (stopServer s) := by
  have hrej : ∀ m : Nat,
      (s.pending.map (fun p => (p.2, Settlement.reject "Server shutting down"))).countP
        (fun p => p.1 == m) = s.pending.countP (fun p => p.2 == m) := by
    intro m
    rw [List.countP_map]
    rfl
  refine ⟨?_, ?_, ?_, ?_, ?_, ?_, ?_, ?_, ?_⟩
  · intro id n hm
    cases hm
  · intro t ht
    exact h.tim_lt t (List.mem_filter.mp ht).1
  · simp [stopServer]
  · simp [stopServer]
  · exact nodup_map_filter _ _ h.fids_nd
  · intro id n hm
    cases hm
  · intro p hp
    rcases List.mem_append.mp hp with hp | hp
    · exact h.set_lt p hp
    · obtain ⟨q, hq, hq2⟩ := List.mem_map.mp hp
      rw [← hq2]
      exact h.pend_lt q.1 q.2 hq
  · intro m
    have hsplit : settleCount (stopServer s) m =
        settleCount s m + s.pending.countP (fun p => p.2 == m) := by
      rw [settleCount, stopServer]
      rw [List.countP_append]
      rw [hrej]
      rfl
    rw [hsplit]
    by_cases hp : 0 < s.pending.countP (fun p => p.2 == m)
    · have hmem : ∃ q ∈ s.pending, q.2 = m := by
        obtain ⟨q, hq, hq2⟩ := List.countP_pos_iff.mp hp
        exact ⟨q, hq, by simpa using hq2⟩
      obtain ⟨q, hq, hq2⟩ := hmem
      have hc0 : settleCount s m = 0 := by
        by_contra hne
        exact (h.set_dis m (Nat.pos_of_ne_zero hne)).1 q.1 (by rw [← hq2]; exact hq)
      rw [hc0]
      simpa using countP_snd_le_one h.vals_nd m
    · have hz : s.pending.countP (fun p => p.2 == m) = 0 := Nat.eq_zero_of_not_pos hp
      rw [hz]
      simpa using h.set_le m
  · intro m hpos
    refine ⟨?_, ?_⟩
    · intro id hm
      cases hm
    intro t ht
    obtain ⟨ht', htc⟩ := List.mem_filter.mp ht
    have hnotval : ∀ q ∈ s.pending, q.2 ≠ t.fid := by
      intro q hq he
      have : s.pending.any (fun p => p.2 == t.fid) = true :=
        List.any_eq_true.mpr ⟨q, hq, by simpa using he⟩
      rw [this] at htc
      simp at htc
    have hsplit : settleCount (stopServer s) m =
        settleCount s m + s.pending.countP (fun p => p.2 == m) := by
      rw [settleCount, stopServer]
      rw [List.countP_append]
      rw [hrej]
      rfl
    rw [hsplit] at hpos
    by_cases hc : 0 < settleCount s m
    · exact (h.set_dis m hc).2 t ht'
    · have hc0 : settleCount s m = 0 := Nat.eq_zero_of_not_pos hc
      rw [hc0] at hpos
      rw [Nat.zero_add] at hpos
      obtain ⟨q, hq, hq2⟩ := List.countP_pos_iff.mp hpos
      intro he
      refine hnotval q hq ?_
      rw [he]
      simpa using hq2

theorem inv_stepServer {s : SState} (h : ServerInv s) (ev : Event) :
    ServerInv (stepServer s ev) := by
  cases ev with
  | register id => exact inv_registerRequest h id
  | success id q =>
    rw [stepServer, handleSuccess]
    cases hget : mapGet s.pending id with
    | none => exact h
    | some n => exact inv_settleAndRemove h hget _
  | error id q =>
    rw [stepServer, handleError]
    cases hget : mapGet s.pending id with
    | none => exact h
    | some n => exact inv_settleAndRemove h hget _
  | cancel id =>
    rw [stepServer, handleCancel]
    cases hget : mapGet s.pending id with
    | none => exact h
    | some n => exact inv_settleAndRemove h hget _
  | fire fid => exact inv_fireTimeout h fid
  | stop => exact inv_stopServer h

theorem inv_runServer {s : SState} (h : ServerInv s) (evs : List Event) :
    ServerInv (runServer s evs) := by
  induction evs generalizing s with
  | nil => exact h
  | cons e es ih => exact ih (inv_stepServer h e)

/-! Retry behaviour. -/

theorem executeWithRetry_failures {E A : Type} (fn : Nat → Except E A) (e : Nat → E)
    (hf : ∀ i, fn i = .error (e i)) (D : Nat) :
    ∀ N a, executeWithRetry fn D N a = (.error (e (a + N)), N + 1, List.replicate N D) := by
  intro N
  induction N with
  | zero =>
    intro a
    rw [executeWithRetry, hf a]
    rfl
  | succ n ih =>
    intro a
    rw [executeWithRetry, hf a]
    have hrest := ih (a + 1)
    simp only [hrest]
    have hae : a + 1 + n = a + (n + 1) := by omega
    rw [hae]
    rfl

/-- C5: with `maxRetries = N` and `retryDelay = D`, an operation whose
every attempt fails makes exactly N+1 total attempts, waits the
configured delay between consecutive attempts (every recorded delay is
at least D — in fact equal to D), and then propagates the last
attempt's failure to the caller unchanged. -/
theorem C5_retry_exhaustion {E A : Type} (fn : Nat → Except E A) (e : Nat → E)
    (D N : Nat) (hf : ∀ i, fn i = .error (e i)) :
    executeWithRetry fn D N 0 = (.error (e N), N + 1, List.replicate N D) ∧
    (executeWithRetry fn D N 0).2.1 = N + 1 ∧
    (executeWithRetry fn D N 0).2.2.length = N ∧
    ∀ d ∈ (executeWithRetry fn D N 0).2.2, D ≤ d := by
  have h := executeWithRetry_failures fn e hf D N 0
  rw [Nat.zero_add] at h
  refine ⟨h, by rw [h], by rw [h]; exact List.length_replicate N D, ?_⟩
  intro d hd
  rw [h] at hd
  have : d = D := List.eq_of_mem_replicate hd
  omega

/-- C5 witness: two attempts for `maxRetries = 1`, one 100 ms delay, and
the second attempt's error is the one propagated. -/
theorem C5_witness :
    executeWithRetry (fun i => (Except.error (toString i) : Except String Unit)) 100 1 0 =
      (Except.error "1", 2, [100]) :=
  (C5_retry_exhaustion (fun i => (Except.error (toString i) : Except String Unit))
    toString 100 1 (fun _ => rfl)).1

/-- C4 counterexample: an open-draft request with neither uuid nor title,
under `maxRetries = 1` and `retryDelay = 100`, makes 2 attempts and
incurs one 100 ms retry delay before the validation error propagates —
not the claimed single attempt with no delay. -/
theorem C4_counterexample :
    openDraft ⟨none, none⟩ (initServer 7777) (fun _ => "rid")
      (fun _ => Except.ok ⟨true, none, none⟩) 100 1 =
      (Except.error "Either uuid or title must be provided", 2, [100]) := by
  rfl

/-- C4 (amended): in `openDraft` with neither uuid nor title, the
validation failure is raised before the external invocation is built or
launched within each attempt, but the throw sits inside
`executeWithRetry`, so it is retried like any other failure: N+1
attempts with the configured delay between them, after which the
validation error itself propagates. -/
theorem C4_validation_is_retried (server : SState) (rid : Nat → String)
    (env : Nat → Except String CallbackResponse) (D N : Nat) :
    (∀ i, (openDraftAttempt ⟨none, none⟩ server (rid i) (env i)).2 = false) ∧
    openDraft ⟨none, none⟩ server rid env D N =
      (Except.error "Either uuid or title must be provided", N + 1, List.replicate N D) := by
  constructor
  · intro i
    rfl
  · have h := executeWithRetry_failures
      (fun i => (openDraftAttempt ⟨none, none⟩ server (rid i) (env i)).1)
      (fun _ => "Either uuid or title must be provided") (fun _ => rfl) D N 0
    exact h

/-- C10: when every attempt's awaited callback is a success outcome whose
data mapping has no non-empty "text" key, `getDraft` raises "No content
returned from Drafts", and — the throw being inside `executeWithRetry` —
that failure is retried up to the configured bound like an external
failure: N+1 attempts, the configured delay between them, and that
error finally propagating. -/
theorem C10_no_content_is_retried (uuid : String)
    (env : Nat → Except String CallbackResponse) (D N : Nat)
    (henv : ∀ i, ∃ r, env i = .ok r ∧ r.success = true ∧
      (mapGet (r.data.getD []) "text" = none ∨ mapGet (r.data.getD []) "text" = some "")) :
    getDraft uuid env D N =
      (.error "No content returned from Drafts", N + 1, List.replicate N D) := by
  have hatt : ∀ i, getDraftAttempt uuid (env i) = .error "No content returned from Drafts" := by
    intro i
    obtain ⟨r, hr, hs, ht⟩ := henv i
    rw [getDraftAttempt, hr]
    simp only [openUrlOutcome, hs, if_true]
    rcases ht with ht | ht <;> simp [jsOr, ht]
  have h := executeWithRetry_failures (fun i => getDraftAttempt uuid (env i))
    (fun _ => "No content returned from Drafts") hatt D N 0
  exact h

/-- C10 witness: a success outcome whose data lacks "text" yields the
no-content error, retried once for `maxRetries = 1` with a 5 ms delay. -/
theorem C10_witness :
    getDraft "u-1" (fun _ => Except.ok ⟨true, some [("uuid", "u-1")], none⟩) 5 1 =
      (Except.error "No content returned from Drafts", 2, [5]) :=
  C10_no_content_is_retried "u-1"
    (fun _ => Except.ok ⟨true, some [("uuid", "u-1")], none⟩) 5 1
    (fun _ => ⟨⟨true, some [("uuid", "u-1")], none⟩, rfl, rfl, Or.inl rfl⟩)

/-- C1: along every event sequence from a fresh server, each registered
future's resolve/reject is invoked at most once (at most one of success
callback, error callback, cancel callback and timeout settles it), and
a callback delivered for an identifier with no table entry — in
particular any callback arriving after the first settlement removed the
entry — is a silent no-op that still receives an HTTP 200
acknowledgment. -/
theorem C1_exactly_once_settlement :
    (∀ (port : Nat) (evs : List Event) (n : Nat),
        settleCount (runServer (initServer port) evs) n ≤ 1) ∧
    (∀ (s : SState) (id : String) (q : List (String × QVal)),
        mapGet s.pending id = none →
        handleSuccess s id q = (s, 200) ∧ handleError s id q = (s, 200) ∧
          handleCancel s id = (s, 200)) := by
  constructor
  · intro port evs n
    exact (inv_runServer (inv_initServer port) evs).set_le n
  · intro s id q hget
    refine ⟨?_, ?_, ?_⟩
    · rw [handleSuccess, hget]
    · rw [handleError, hget]
    · rw [handleCancel, hget]

/-- C1 witness: a duplicated success callback for "req-A" settles future
0 only once, and callbacks for an unknown identifier are no-ops with
status 200. -/
theorem C1_witness :
    settleCount (runServer (initServer 7777)
      [Event.register "req-A",
       Event.success "req-A" [("text", QVal.str "hello")],
       Event.success "req-A" [("text", QVal.str "again")]]) 0 ≤ 1 ∧
    (handleSuccess (initServer 7777) "req-Z" [] = (initServer 7777, 200) ∧
     handleError (initServer 7777) "req-Z" [] = (initServer 7777, 200) ∧
     handleCancel (initServer 7777) "req-Z" = (initServer 7777, 200)) :=
  ⟨C1_exactly_once_settlement.1 7777
      [Event.register "req-A",
       Event.success "req-A" [("text", QVal.str "hello")],
       Event.success "req-A" [("text", QVal.str "again")]] 0,
   C1_exactly_once_settlement.2 (initServer 7777) "req-Z" [] rfl⟩

/-- C2 counterexample: registering "req-A" twice while the first
registration is outstanding raises no error and settles nothing — the
table entry is silently overwritten with the new future 1, future 0 is
left unsettled, and its timer stays live. -/
theorem C2_counterexample :
    runServer (initServer 7777) [Event.register "req-A", Event.register "req-A"] =
      { port := 7777, nextId := 2, pending := [("req-A", 1)],
        timers := [⟨0, "req-A", REQUEST_TIMEOUT⟩, ⟨1, "req-A", REQUEST_TIMEOUT⟩],
        settles := [] } := by
  rfl

/-- C2 (amended): `registerRequest` under a still-outstanding identifier
is not treated as an error — it is last-registration-wins: afterwards
the table maps the identifier to the brand-new future, no settlement is
recorded (the earlier future is neither resolved nor rejected), and the
timer list only grows, so the earlier registration's timer keeps
running. -/
theorem C2_reregistration_overwrites (s : SState) (id : String) :
    mapGet (registerRequest s id).pending id = some s.nextId ∧
    (registerRequest s id).settles = s.settles ∧
    (registerRequest s id).timers = s.timers ++ [⟨s.nextId, id, REQUEST_TIMEOUT⟩] :=
  ⟨mapGet_mapSet_self _ _ _, rfl, rfl⟩

/-- C6: each inbound callback resolves — does not reject — the matching
pending future: the success route with a success outcome carrying the
string-valued query parameters as a flat mapping; the error route with a
failure outcome carrying the `error` query parameter's value, defaulting
to "Unknown error" when it is absent; the cancel route with a failure
outcome carrying exactly the literal "User cancelled". -/
theorem C6_callback_outcomes (s : SState) (id : String) (q : List (String × QVal))
    (n : Nat) (hget : mapGet s.pending id = some n) :
    (handleSuccess s id q).1.settles = s.settles ++
      [(n, Settlement.resolve ⟨true, some (stringEntries q), none⟩)] ∧
    (handleError s id q).1.settles = s.settles ++
      [(n, Settlement.resolve ⟨false, none, some (errorFrom q)⟩)] ∧
    (mapGet q "error" = none → errorFrom q = "Unknown error") ∧
    (∀ e, mapGet q "error" = some (QVal.str e) → e ≠ "" → errorFrom q = e) ∧
    (handleCancel s id).1.settles = s.settles ++
      [(n, Settlement.resolve ⟨false, none, some "User cancelled"⟩)] := by
  refine ⟨?_, ?_, ?_, ?_, ?_⟩
  · rw [handleSuccess, hget]
    rfl
  · rw [handleError, hget]
    rfl
  · intro h
    rw [errorFrom, h]
  · intro e he hne
    rw [errorFrom, he]
    simp [hne]
  · rw [handleCancel, hget]
    rfl

/-- C6 witness: the spec's concrete examples — success with
`text=hello&uuid=123` resolves with that data; an error callback with no
`error` parameter defaults to "Unknown error"; cancel resolves with
"User cancelled". -/
theorem C6_witness :
    (handleSuccess (registerRequest (initServer 7777) "req-A") "req-A"
        [("text", QVal.str "hello"), ("uuid", QVal.str "123")]).1.settles =
      [(0, Settlement.resolve ⟨true, some [("text", "hello"), ("uuid", "123")], none⟩)] ∧
    (handleError (registerRequest (initServer 7777) "req-A") "req-A" []).1.settles =
      [(0, Settlement.resolve ⟨false, none, some "Unknown error"⟩)] ∧
    (mapGet ([] : List (String × QVal)) "error" = none →
      errorFrom [] = "Unknown error") ∧
    (∀ e, mapGet ([] : List (String × QVal)) "error" = some (QVal.str e) → e ≠ "" →
      errorFrom [] = e) ∧
    (handleCancel (registerRequest (initServer 7777) "req-A") "req-A").1.settles =
      [(0, Settlement.resolve ⟨false, none, some "User cancelled"⟩)] := by
  have h1 := C6_callback_outcomes (registerRequest (initServer 7777) "req-A") "req-A"
    [("text", QVal.str "hello"), ("uuid", QVal.str "123")] 0 rfl
  have h2 := C6_callback_outcomes (registerRequest (initServer 7777) "req-A") "req-A"
    [] 0 rfl
  exact ⟨h1.1, h2.2.1, h2.2.2.1, h2.2.2.2.1, h2.2.2.2.2⟩

theorem stringAppend_assoc (a b c : String) : a ++ b ++ c = a ++ (b ++ c) := by
  obtain ⟨la⟩ := a
  obtain ⟨lb⟩ := b
  obtain ⟨lc⟩ := c
  show String.mk (la ++ lb ++ lc) = String.mk (la ++ (lb ++ lc))
  rw [List.append_assoc]

/-- C7: `registerRequest` arms a timer of exactly `REQUEST_TIMEOUT` =
30000 ms (30 seconds) for the new future; when a live timer fires with
no callback having cleared it, the pending entry under its captured
request identifier is removed from the table and the future is rejected
with a timeout error whose message contains that identifier. -/
theorem C7_timeout_rejects (s : SState) (id : String) (fid : Nat) (t : Timer)
    (hfind : s.timers.find? (fun u => u.fid == fid) = some t) :
    REQUEST_TIMEOUT = 30000 ∧
    toString REQUEST_TIMEOUT = "30000" ∧
    (registerRequest s id).timers = s.timers ++ [⟨s.nextId, id, REQUEST_TIMEOUT⟩] ∧
    mapGet (fireTimeout s fid).pending t.reqId = none ∧
    (fireTimeout s fid).settles = s.settles ++
      [(fid, Settlement.reject
        ("Request " ++ t.reqId ++ " timed out after " ++ toString REQUEST_TIMEOUT ++ "ms"))] ∧
    ∃ pre post,
      "Request " ++ t.reqId ++ " timed out after " ++ toString REQUEST_TIMEOUT ++ "ms" =
        pre ++ t.reqId ++ post := by
  refine ⟨rfl, rfl, rfl, ?_, ?_, "Request ",
    " timed out after " ++ toString REQUEST_TIMEOUT ++ "ms", ?_⟩
  · rw [fireTimeout, hfind]
    exact mapGet_mapDelete_self _ _
  · rw [fireTimeout, hfind]
    rfl
  · simp [stringAppend_assoc]

/-- C7 witness: registering "req-D" and letting its timer fire removes
the entry and rejects future 0 with the timeout message naming
"req-D". -/
theorem C7_witness :
    mapGet (fireTimeout (registerRequest (initServer 7777) "req-D") 0).pending
      "req-D" = none ∧
    (fireTimeout (registerRequest (initServer 7777) "req-D") 0).settles =
      [(0, Settlement.reject "Request req-D timed out after 30000ms")] := by
  have h := C7_timeout_rejects (registerRequest (initServer 7777) "req-D") "req-D" 0
    ⟨0, "req-D", REQUEST_TIMEOUT⟩ rfl
  refine ⟨h.2.2.2.1, ?_⟩
  rw [h.2.2.2.2.1]
  rfl

/-- C8 counterexample: after the reachable double registration of
"req-E" (the C2 overwrite anomaly), `stop()` rejects only the current
entry's future 1, and the orphaned timer 0 of the overwritten
registration survives the call — a dangling live timer after `stop()`
returns, refuting the unconditional "no dangling timers" part of the
claim. -/
theorem C8_counterexample :
    stopServer (runServer (initServer 7777)
        [Event.register "req-E", Event.register "req-E"]) =
      { port := 7777, nextId := 2, pending := [],
        timers := [⟨0, "req-E", REQUEST_TIMEOUT⟩],
        settles := [(1, Settlement.reject "Server shutting down")] } := by
  rfl

/-- C8 (amended): `stop()` appends exactly one "Server shutting down"
rejection per currently Pending Request (table entry) — and nothing
else — clears the request table, cancels every timer stored in a
current entry (no surviving timer carries a current entry's future id),
and is a complete no-op on a server with no outstanding request; a
timer orphaned by the re-registration anomaly is not cancelled and
survives the call. -/
theorem C8_stop_rejects_current (s : SState) :
    (stopServer s).settles = s.settles ++
      s.pending.map (fun p => (p.2, Settlement.reject "Server shutting down")) ∧
    (stopServer s).pending = [] ∧
    (∀ id n, (id, n) ∈ s.pending → ∀ t ∈ (stopServer s).timers, t.fid ≠ n) ∧
    (s.pending = [] → stopServer s = s) := by
  refine ⟨rfl, rfl, ?_, ?_⟩
  · intro id n hm t ht
    obtain ⟨ht2, htc⟩ := List.mem_filter.mp ht
    intro he
    have hany : s.pending.any (fun p => p.2 == t.fid) = true :=
      List.any_eq_true.mpr ⟨(id, n), hm, by simp [he]⟩
    rw [hany] at htc
    simp at htc
  · intro hp
    obtain ⟨po, ni, pe, ti, se⟩ := s
    simp only at hp
    subst hp
    simp [stopServer]

/-- C8 witness: stopping while "req-E" is outstanding rejects its future
with the shutdown error, clears the table, and no surviving timer
carries that entry's future id; stopping a quiescent server changes
nothing. -/
theorem C8_witness :
    (stopServer (registerRequest (initServer 7777) "req-E")).settles =
      [(0, Settlement.reject "Server shutting down")] ∧
    (stopServer (registerRequest (initServer 7777) "req-E")).pending = [] ∧
    (∀ t ∈ (stopServer (registerRequest (initServer 7777) "req-E")).timers,
      t.fid ≠ 0) ∧
    stopServer (initServer 7777) = initServer 7777 := by
  have h1 := C8_stop_rejects_current (registerRequest (initServer 7777) "req-E")
  have h2 := C8_stop_rejects_current (initServer 7777)
  exact ⟨h1.1, h1.2.1,
    h1.2.2.1 "req-E" 0 (List.mem_singleton.mpr rfl), h2.2.2.2 rfl⟩

/-- C9: `getCallbackUrls` is a pure function of the bound port and the
identifier: for every non-empty identifier it returns exactly the
`http://localhost:<port>/x-success|x-error|x-cancel/<id>` triple, it
requires no prior `registerRequest` (no assumption on — and no change
to — the request table: any two states with the same port agree, and
registrations do not affect it). -/
theorem C9_callback_urls (s s' : SState) (id : String) (_hid : id ≠ "") :
    getCallbackUrls s id =
      ("http://localhost:" ++ toString s.port ++ "/x-success/" ++ id,
       "http://localhost:" ++ toString s.port ++ "/x-error/" ++ id,
       "http://localhost:" ++ toString s.port ++ "/x-cancel/" ++ id) ∧
    (s.port = s'.port → getCallbackUrls s id = getCallbackUrls s' id) ∧
    (∀ rid, getCallbackUrls (registerRequest s rid) id = getCallbackUrls s id) := by
  refine ⟨rfl, ?_, fun rid => rfl⟩
  intro hp
  rw [getCallbackUrls, getCallbackUrls, hp]

/-- C9 witness: the triple for port 7777 and identifier "req-B". -/
theorem C9_witness :
    getCallbackUrls (initServer 7777) "req-B" =
      ("http://localhost:7777/x-success/req-B",
       "http://localhost:7777/x-error/req-B",
       "http://localhost:7777/x-cancel/req-B") := by
  have h := C9_callback_urls (initServer 7777) (initServer 7777) "req-B" (by decide)
  rw [h.1]
  rfl

/-- The five characters `!` `'` `(` `)` `*` (codes 33, 39, 40, 41, 42)
that `encodeURIComponentSafe` escapes beyond `encodeURIComponent`. -/
def strictMarks : String :=
  String.mk [Char.ofNat 33, Char.ofNat 39, Char.ofNat 40, Char.ofNat 41, Char.ofNat 42]

/-- C3 counterexample: a parameter value consisting of the single
character `*` reaches the invocation URL unescaped (`uuid=*`), because
`buildUrl` serializes with `URLSearchParams` form-urlencoding — which
leaves `*` alone — and never calls `encodeURIComponentSafe`, which
would have produced `%2A`. So the URL is not built with a scheme that
escapes all of `! ' ( ) *`. -/
theorem C3_counterexample :
    buildUrl (initServer 7777) "rid" "open" [("uuid", some (PVal.s "*"))] =
      "drafts://x-callback-url/open?uuid=*&x-success=http%3A%2F%2Flocalhost%3A7777%2Fx-success%2Frid&x-error=http%3A%2F%2Flocalhost%3A7777%2Fx-error%2Frid&x-cancel=http%3A%2F%2Flocalhost%3A7777%2Fx-cancel%2Frid" ∧
    formUrlEncode "*" = "*" ∧
    encodeURIComponentSafe "*" = "%2A" := by
  refine ⟨?_, rfl, rfl⟩
  rfl

/-- C3 (amended): the helper `encodeURIComponentSafe` does escape each of
`! ' ( ) *` beyond standard `encodeURIComponent` (which leaves all five
untouched), but `buildUrl` serializes the parameters and the three
callback URLs with `URLSearchParams` form-urlencoding instead, which
escapes `!` `'` `(` `)` (and space as `+`) yet leaves `*` unescaped —
as the full invocation URL for a value exercising all five characters
shows. -/
theorem C3_form_urlencoding :
    encodeURIComponent strictMarks = strictMarks ∧
    encodeURIComponentSafe strictMarks = "%21%27%28%29%2A" ∧
    formUrlEncode strictMarks = "%21%27%28%29*" ∧
    buildUrl (initServer 7777) "rid" "create"
        [("text", some (PVal.s "hi (there)! *wow*"))] =
      "drafts://x-callback-url/create?text=hi+%28there%29%21+*wow*&x-success=http%3A%2F%2Flocalhost%3A7777%2Fx-success%2Frid&x-error=http%3A%2F%2Flocalhost%3A7777%2Fx-error%2Frid&x-cancel=http%3A%2F%2Flocalhost%3A7777%2Fx-cancel%2Frid" := by
  refine ⟨rfl, rfl, rfl, ?_⟩
  rfl
